import Mathlib

/-!
Verification of the team/member directory service in `src/app.py`:
a shallow embedding of its persistence model, CRUD operations and
GitHub sync logic, together with theorems settling the spec claims.

Strings coming from JSON request bodies are modelled as `Option String`
(`none` covers both an absent key and a JSON `null`, exactly what
`data.get(key)` yields), and Python's `or` / truthiness on such values
is modelled explicitly.
-/

/-- Equality of `Except` values is decidable when it is on both sides. -/
instance {ε : Type} {α : Type} [DecidableEq ε] [DecidableEq α] :
    DecidableEq (Except ε α) := fun x y =>
  match x, y with
  | .error a, .error b =>
    if h : a = b then .isTrue (congrArg Except.error h)
    else .isFalse (fun hh => h (Except.error.inj hh))
  | .error _, .ok _ => .isFalse (fun hh => Except.noConfusion hh)
  | .ok _, .error _ => .isFalse (fun hh => Except.noConfusion hh)
  | .ok a, .ok b =>
    if h : a = b then .isTrue (congrArg Except.ok h)
    else .isFalse (fun hh => h (Except.ok.inj hh))

namespace WebDemo

/-- Python truthiness of an optional string: `None` and `""` are falsy. -/
def pyTruthy : Option String → Bool
  | none => false
  | some s => s ≠ ""

/-- `x or y` for an optional string `x` and a string default `y`,
with Python semantics: `None` and `""` fall through to `y`. -/
def pyOr (x : Option String) (y : String) : String :=
  match x with
  | none => y
  | some s => if s = "" then y else s

/-- The characters Python's `str.strip()` removes (ASCII whitespace). -/
def isPySpace (c : Char) : Bool :=
  c = ' ' || c = '\t' || c = '\n' || c = '\r' || c = '\x0b' || c = '\x0c'

/-- `str.strip()` on a character list: drop whitespace at both ends. -/
def pyStripChars (l : List Char) : List Char :=
  ((l.dropWhile isPySpace).reverse.dropWhile isPySpace).reverse

/-- Python's `str.strip()`. -/
def pyStrip (s : String) : String :=
  ⟨pyStripChars s.data⟩

/-- A row of the `teams` table (`class Team`, app.py lines 34-47).
`createdAt` is an abstract timestamp. -/
structure TeamRec where
  id : Nat
  name : String
  description : String
  createdAt : Nat
deriving DecidableEq, Repr

/-- A row of the `members` table (`class Member`, app.py lines 62-71). -/
structure MemberRec where
  id : Nat
  name : String
  email : String
  role : String
  joinedAt : Nat
  teamId : Nat
deriving DecidableEq, Repr

/-- The database state: the two tables plus the autoincrement counters
that assign fresh primary keys. -/
structure DB where
  teams : List TeamRec
  members : List MemberRec
  nextTeamId : Nat
  nextMemberId : Nat
deriving DecidableEq, Repr

/-- Errors the JSON API reports: `get_or_404` (404), and the 400 responses,
split by which check produced them. -/
inductive ApiError where
  | notFound
  | validation (msg : String)
  | conflict (msg : String)
deriving DecidableEq, Repr

/-- Request body of POST/PUT `/api/teams...`: `data.get("name")`,
`data.get("description")`. -/
structure TeamPayload where
  name : Option String
  description : Option String
deriving DecidableEq, Repr

/-- Request body of POST/PUT member endpoints. -/
structure MemberPayload where
  name : Option String
  email : Option String
  role : Option String
deriving DecidableEq, Repr

/-- `Team.query.get(team_id)` — lookup by primary key. -/
def findTeam (db : DB) (teamId : Nat) : Option TeamRec :=
  db.teams.find? (fun t => t.id == teamId)

/-- `Member.query.get(member_id)` — lookup by primary key. -/
def findMember (db : DB) (memberId : Nat) : Option MemberRec :=
  db.members.find? (fun m => m.id == memberId)

/-- `create_team` (app.py lines 95-111). -/
def createTeam (db : DB) (data : TeamPayload) (now : Nat) :
    Except ApiError (DB × TeamRec) :=
  let name := pyStrip (pyOr data.name "")
  let description := pyStrip (pyOr data.description "")
  if name = "" then .error (.validation "Team name is required.")
  else if (db.teams.find? (fun t => t.name == name)).isSome then
    .error (.conflict "A team with this name already exists.")
  else
    let team : TeamRec := ⟨db.nextTeamId, name, description, now⟩
    .ok ({ db with teams := db.teams ++ [team], nextTeamId := db.nextTeamId + 1 },
         team)

/-- `update_team` (app.py lines 120-139). An omitted or empty `name`
falls back to the current name via Python `or`; `description` always
comes from the request (empty default). -/
def updateTeam (db : DB) (teamId : Nat) (data : TeamPayload) :
    Except ApiError (DB × TeamRec) :=
  match findTeam db teamId with
  | none => .error .notFound
  | some team =>
    let name := pyStrip (pyOr data.name team.name)
    let description := pyStrip (pyOr data.description "")
    if name = "" then .error (.validation "Team name is required.")
    else if (db.teams.find? (fun t => t.id != teamId && t.name == name)).isSome then
      .error (.conflict "A team with this name already exists.")
    else
      let team' : TeamRec := { team with name := name, description := description }
      .ok ({ db with
              teams := db.teams.map (fun t => if t.id == teamId then team' else t) },
           team')

/-- `delete_team` (app.py lines 142-147). The relationship is declared
with `cascade="all, delete-orphan"` (line 45), so deleting a team also
deletes every member whose `team_id` references it. -/
def deleteTeam (db : DB) (teamId : Nat) : Except ApiError DB :=
  match findTeam db teamId with
  | none => .error .notFound
  | some _ =>
    .ok { db with
            teams := db.teams.filter (fun t => t.id != teamId),
            members := db.members.filter (fun m => m.teamId != teamId) }

/-- `add_member` (app.py lines 150-166). -/
def addMember (db : DB) (teamId : Nat) (data : MemberPayload) (now : Nat) :
    Except ApiError (DB × MemberRec) :=
  match findTeam db teamId with
  | none => .error .notFound
  | some team =>
    let name := pyStrip (pyOr data.name "")
    let email := pyStrip (pyOr data.email "")
    let role := pyStrip (pyOr data.role "")
    if name = "" || email = "" then
      .error (.validation "Both name and email are required.")
    else
      let m : MemberRec := ⟨db.nextMemberId, name, email, role, now, team.id⟩
      .ok ({ db with members := db.members ++ [m],
                     nextMemberId := db.nextMemberId + 1 },
           m)

/-- `update_member` (app.py lines 176-193). `name`/`email` fall back to
the stored values via Python `or`; `role` always comes from the request
(empty default), so an omitted role resets to `""`. -/
def updateMember (db : DB) (memberId : Nat) (data : MemberPayload) :
    Except ApiError (DB × MemberRec) :=
  match findMember db memberId with
  | none => .error .notFound
  | some member =>
    let name := pyStrip (pyOr data.name member.name)
    let email := pyStrip (pyOr data.email member.email)
    let role := pyStrip (pyOr data.role "")
    if name = "" || email = "" then
      .error (.validation "Both name and email are required.")
    else
      let member' : MemberRec :=
        { member with name := name, email := email, role := role }
      .ok ({ db with
              members := db.members.map
                (fun m => if m.id == memberId then member' else m) },
           member')

/-- `delete_member` (app.py lines 196-201): deletes the one member row,
leaves the `teams` table untouched. -/
def deleteMember (db : DB) (memberId : Nat) : Except ApiError DB :=
  match findMember db memberId with
  | none => .error .notFound
  | some _ =>
    .ok { db with members := db.members.filter (fun m => m.id != memberId) }

/-! ### `github_paginated_get` (app.py lines 216-261)

The HTTP layer is modelled by a `fetch` oracle mapping a URL and the
optional query parameters to a response (`none` models a
`requests.RequestException`).  The Link-header parsing reproduces the
Python string operations (`split(",")`, `strip()`, `in`, `find`,
slicing) character by character. -/

/-- Query parameters of a request, e.g. `per_page=100`. -/
abbrev Params := List (String × String)

/-- `s.find(sub)` starting from offset `i` (Python returns -1 on a miss). -/
def pyFindAux (sub : List Char) : List Char → Nat → Int
  | [], i => if sub.isEmpty then (i : Int) else -1
  | l@(_ :: t), i => if sub.isPrefixOf l then (i : Int) else pyFindAux sub t (i + 1)

/-- Python's `s.find(sub)`. -/
def pyFind (s sub : String) : Int :=
  pyFindAux sub.data s.data 0

/-- Python's `sub in s`. -/
def pyContains (s sub : String) : Bool :=
  pyFind s sub != -1

/-- Clamp a Python slice index into `[0, n]`, counting negatives from
the end. -/
def pySliceIdx (n : Nat) (i : Int) : Nat :=
  if i < 0 then (i + n).toNat else min i.toNat n

/-- Python's `s[a:b]`. -/
def pySlice (s : String) (a b : Int) : String :=
  let l := s.data
  ⟨(l.take (pySliceIdx l.length b)).drop (pySliceIdx l.length a)⟩

/-- Python's `s.split(",")` (on the empty string it yields `[""]`). -/
def splitCommaAux : List Char → List Char → List (List Char)
  | [], acc => [acc.reverse]
  | c :: t, acc =>
    if c = ',' then acc.reverse :: splitCommaAux t [] else splitCommaAux t (c :: acc)

/-- Split a string at commas. -/
def splitComma (s : String) : List String :=
  (splitCommaAux s.data []).map (fun l => ⟨l⟩)

/-- The marker looked for in each Link-header part. -/
def relNextTag : String := "rel=\"next\""

/-- Scan the stripped header parts for the first one containing
`rel="next"` and slice out what stands between `<` and `>`. -/
def findNextAux : List String → Option String
  | [] => none
  | part :: rest =>
    if pyContains part relNextTag then
      some (pySlice part (pyFind part "<" + 1) (pyFind part ">"))
    else findNextAux rest

/-- Extraction of the next-page URL from the Link header
(app.py lines 249-259); `none` when the header is empty or carries no
`rel="next"` directive. -/
def parseNextUrl (linkHeader : String) : Option String :=
  if linkHeader = "" then none
  else findNextAux ((splitComma linkHeader).map pyStrip)

/-- The payload of one page: `response.json()` is either a JSON list
(extended into the results) or a single object (appended). -/
inductive PagePayload (α : Type) where
  | list (items : List α)
  | single (item : α)
deriving DecidableEq, Repr

/-- The items a page contributes to the accumulated results. -/
def PagePayload.items {α : Type} : PagePayload α → List α
  | .list l => l
  | .single x => [x]

/-- One HTTP response: status, the optional `message` field of the JSON
body (used for error statuses), the payload and the Link header. -/
structure PageResponse (α : Type) where
  status : Nat
  message : Option String
  payload : PagePayload α
  linkHeader : String
deriving DecidableEq, Repr

/-- Default error message when an error body has no `message` field. -/
def ghApiErrorMsg : String := "GitHub API error."

def apiBaseUrl : String := "https://api.github.com"

/-- The request log entry: URL plus the query parameters sent with it. -/
abbrev Request := String × Option Params

/-- The `while url:` loop of `github_paginated_get`, with `fuel` bounding
the number of iterations (the Python loop has no such bound and can in
principle chase links forever).  Returns the fetched items (or the
`GitHubSyncError` message) together with the log of issued requests.
`queryParams` is sent only on the first iteration; every recursive call
passes `none`, mirroring `params if first_request else None`. -/
def paginatedLoop {α : Type} (fetch : String → Option Params → Option (PageResponse α)) :
    Nat → Option String → Option Params → List α → List Request →
    Except String (List α) × List Request
  | 0, url?, _, acc, log =>
    if pyTruthy url? then (.error "pagination fuel exhausted", log) else (.ok acc, log)
  | fuel + 1, url?, queryParams, acc, log =>
    match url? with
    | none => (.ok acc, log)
    | some url =>
      if url = "" then (.ok acc, log)
      else
        let log' := log ++ [(url, queryParams)]
        match fetch url queryParams with
        | none => (.error "Unable to reach GitHub API.", log')
        | some resp =>
          if resp.status ≥ 400 then (.error (resp.message.getD ghApiErrorMsg), log')
          else
            paginatedLoop fetch fuel (parseNextUrl resp.linkHeader) none
              (acc ++ resp.payload.items) log'

/-- `github_paginated_get(path, params)`: start at the base URL plus
`path` with the given query parameters. -/
def githubPaginatedGet {α : Type} (fetch : String → Option Params → Option (PageResponse α))
    (fuel : Nat) (path : String) (params : Option Params) :
    Except String (List α) × List Request :=
  paginatedLoop fetch fuel (some (apiBaseUrl ++ path)) params [] []

/-- A finite chain of pages under a fetch oracle: the oracle returns
each listed page (the first against the given query parameters, the
rest against `none`), every status is a success, each page's Link
header yields the next listed URL via `parseNextUrl`, and the last page
carries no `rel="next"` directive. -/
def ChainOk {α : Type} (fetch : String → Option Params → Option (PageResponse α)) :
    Option Params → List (String × PageResponse α) → Prop
  | _, [] => True
  | qp, (url, resp) :: rest =>
    url ≠ "" ∧ fetch url qp = some resp ∧ resp.status < 400 ∧
    (match rest with
     | [] => parseNextUrl resp.linkHeader = none
     | (nextUrl, _) :: _ => parseNextUrl resp.linkHeader = some nextUrl) ∧
    ChainOk fetch none rest

/-! ### `sync_github` (app.py lines 264-322)

The two kinds of remote fetch `sync_github` performs are modelled by a
`Remote` oracle giving the outcome each `github_paginated_get` call
would produce: either the list of decoded JSON objects or the message of
the `GitHubSyncError` the fetch raised.  The database session is a
value; the single `db.session.commit()` makes the reconciled state the
result, and `db.session.rollback()` returns the caller's original
state. -/

/-- One element of the `/orgs/{org}/teams` payload; every field is
optional since `payload.get(...)` may yield `None`. -/
structure RemoteTeam where
  name : Option String
  slug : Option String
  description : Option String
deriving DecidableEq, Repr

/-- One element of a team-members payload. -/
structure RemoteMember where
  login : Option String
  name : Option String
  role : Option String
deriving DecidableEq, Repr

/-- Outcomes of the paginated fetches `sync_github` makes: the team
listing of the organization, and the member listing per team slug. -/
structure Remote where
  teamsResult : Except String (List RemoteTeam)
  membersResult : String → Except String (List RemoteMember)

/-- An exception escaping the reconciliation loop: a `GitHubSyncError`
raised by a fetch, or any other exception (e.g. the `KeyError` from
`team_payload['slug']` when a team object has no slug). -/
inductive SyncExc where
  | gh (msg : String)
  | other
deriving DecidableEq, Repr

/-- The dictionary `sync_github` returns. -/
structure Summary where
  organization : String
  teams : Nat
  members : Nat
deriving DecidableEq, Repr

/-- State threaded through the reconciliation loop: the session's
database view, the two counters, and the log of member-fetch requests
issued so far. -/
structure LoopState where
  db : DB
  importedTeams : Nat
  importedMembers : Nat
  requests : List String
deriving Repr

def emailSuffix : String := "@users.noreply.github.com"

/-- The body of the inner member loop (app.py lines 296-310): skip
members without a login, otherwise insert a member row with the derived
noreply email and bump `imported_members`. -/
def addSyncMember (now : Nat) (tid : Nat) (st : DB × Nat) (mp : RemoteMember) :
    DB × Nat :=
  match mp.login with
  | none => st
  | some login =>
    if login = "" then st
    else
      let m : MemberRec :=
        ⟨st.1.nextMemberId, pyOr mp.name login, login ++ emailSuffix,
         pyOr mp.role "", now, tid⟩
      ({ st.1 with members := st.1.members ++ [m],
                   nextMemberId := st.1.nextMemberId + 1 },
       st.2 + 1)

/-- Find-or-create of the local team plus the description overwrite
(app.py lines 281-287): the first team with the remote name gets its
description replaced in place; otherwise a fresh row is inserted and
`db.session.flush()` assigns it the next id. -/
def upsertTeam (db : DB) (teamName desc : String) (now : Nat) : TeamRec × DB :=
  match db.teams.find? (fun t => t.name == teamName) with
  | some t =>
    let team : TeamRec := { t with description := desc }
    (team, { db with teams := db.teams.map (fun u => if u.id == t.id then team else u) })
  | none =>
    let team : TeamRec := ⟨db.nextTeamId, teamName, desc, now⟩
    (team, { db with teams := db.teams ++ [team], nextTeamId := db.nextTeamId + 1 })

/-- `Member.query.filter_by(team_id=team.id).delete(...)` (app.py
line 289): full replace starts by deleting every member of the team. -/
def clearTeamMembers (db : DB) (tid : Nat) : DB :=
  { db with members := db.members.filter (fun m => m.teamId != tid) }

/-- One iteration of the `for team_payload in teams_payload` loop
(app.py lines 276-312).  An error aborts the whole loop (the exception
propagates); the request log at raise time travels with it. -/
def syncTeamStep (remote : Remote) (org : String) (now : Nat)
    (st : LoopState) (tp : RemoteTeam) : Except (SyncExc × List String) LoopState :=
  match tp.name with
  | none => .ok st
  | some teamName =>
    if teamName = "" then .ok st
    else
      let td := upsertTeam st.db teamName (pyOr tp.description "") now
      let db2 := clearTeamMembers td.2 td.1.id
      match tp.slug with
      | none => .error (.other, st.requests)
      | some slug =>
        let reqs := st.requests ++ ["/orgs/" ++ org ++ "/teams/" ++ slug ++ "/members"]
        match remote.membersResult slug with
        | .error msg => .error (.gh msg, reqs)
        | .ok ms =>
          let fm := ms.foldl (addSyncMember now td.1.id) (db2, st.importedMembers)
          .ok ⟨fm.1, st.importedTeams + 1, fm.2, reqs⟩

/-- The reconciliation loop over the remote team payloads. -/
def syncLoop (remote : Remote) (org : String) (now : Nat) :
    List RemoteTeam → LoopState → Except (SyncExc × List String) LoopState
  | [], st => .ok st
  | tp :: rest, st =>
    match syncTeamStep remote org now st tp with
    | .error e => .error e
    | .ok st' => syncLoop remote org now rest st'

/-- Message of the `GitHubSyncError` raised when no organization is
configured (app.py line 269). -/
def configErrorMsg : String :=
  "Set the GITHUB_ORG environment variable to sync with GitHub."

/-- Message wrapping any non-`GitHubSyncError` exception (app.py
line 320). -/
def importFailMsg : String := "Failed to import data from GitHub."

/-- Outcome of one `sync_github` invocation: the returned summary or the
raised `GitHubSyncError` message, the committed database state, and the
log of fetches performed (one entry per `github_paginated_get` call). -/
structure SyncResult where
  result : Except String Summary
  db : DB
  requests : List String
deriving DecidableEq, Repr

/-- `sync_github(organization)` (app.py lines 264-322).  `githubOrg` is
`app.config["GITHUB_ORG"]`.  The teams fetch happens before the
`try`; any exception inside the loop triggers `db.session.rollback()`,
so the committed state is the caller's `db`; on success the single
`db.session.commit()` publishes the reconciled state. -/
def syncGithub (remote : Remote) (organization : Option String) (githubOrg : String)
    (now : Nat) (db : DB) : SyncResult :=
  let org := pyStrip (pyOr organization githubOrg)
  if org = "" then ⟨.error configErrorMsg, db, []⟩
  else
    let teamsReq := "/orgs/" ++ org ++ "/teams"
    match remote.teamsResult with
    | .error msg => ⟨.error msg, db, [teamsReq]⟩
    | .ok teamsPayload =>
      match syncLoop remote org now teamsPayload ⟨db, 0, 0, [teamsReq]⟩ with
      | .error (.gh msg, reqs) => ⟨.error msg, db, reqs⟩
      | .error (.other, reqs) => ⟨.error importFailMsg, db, reqs⟩
      | .ok st => ⟨.ok ⟨org, st.importedTeams, st.importedMembers⟩, st.db, st.requests⟩

/-! ### Derived notions used by the claims -/

/-- The truthy name of a remote team payload, if any: the teams the loop
does not skip are exactly those with `truthyName = some n`. -/
def truthyName (tp : RemoteTeam) : Option String :=
  match tp.name with
  | none => none
  | some s => if s = "" then none else some s

/-- The first team with a given name (`Team.query.filter_by(name=...)`). -/
def teamByName (db : DB) (n : String) : Option TeamRec :=
  db.teams.find? (fun t => t.name == n)

/-- The user-visible data of the members of team `tid`, in storage
order: name, email and role (ids and timestamps are server-assigned and
change across a re-sync). -/
def teamMembersData (db : DB) (tid : Nat) : List (String × String × String) :=
  (db.members.filter (fun m => m.teamId == tid)).map (fun m => (m.name, m.email, m.role))

/-- Member data of the team with a given name. -/
def membersDataByName (db : DB) (n : String) : Option (List (String × String × String)) :=
  (teamByName db n).map (fun t => teamMembersData db t.id)

/-- The member rows a remote member payload produces, projected to their
data: one entry per payload member with a truthy login. -/
def derivedMembersData (ms : List RemoteMember) : List (String × String × String) :=
  ms.filterMap (fun mp =>
    match mp.login with
    | none => none
    | some login =>
      if login = "" then none
      else some (pyOr mp.name login, login ++ emailSuffix, pyOr mp.role ""))

/-- Storage-layer well-formedness: primary keys are unique, team names
are unique (the schema declares `name` with `unique=True`), and the
autoincrement counter is ahead of every assigned id. -/
def dbWF (db : DB) : Prop :=
  (db.teams.map (fun t => t.id)).Nodup ∧
  (db.teams.map (fun t => t.name)).Nodup ∧
  ∀ t ∈ db.teams, t.id < db.nextTeamId

instance (db : DB) : Decidable (dbWF db) := by
  unfold dbWF
  infer_instance

/-! ### Concrete states and remotes used by witnesses and counterexamples -/

/-- A database holding one team with a description and one member. -/
def caseDb : DB :=
  ⟨[⟨1, "Alpha", "Infra", 0⟩],
   [⟨1, "Ann", "ann@example.com", "lead", 0, 1⟩], 2, 2⟩

/-- `caseDb` after `PUT /api/teams/1` with an empty body: the omitted
description has been wiped. -/
def caseDbNoDesc : DB :=
  ⟨[⟨1, "Alpha", "", 0⟩],
   [⟨1, "Ann", "ann@example.com", "lead", 0, 1⟩], 2, 2⟩

/-- A remote organization with one team of one member whose GitHub
display name carries surrounding whitespace. -/
def caseRemotePadded : Remote :=
  ⟨.ok [⟨some "Eng", some "eng", none⟩],
   fun s => if s = "eng" then .ok [⟨some "alice", some " Alice ", none⟩]
            else .error "unknown slug"⟩

/-- The database `caseRemotePadded` produces from an empty store. -/
def caseDbPadded : DB :=
  ⟨[⟨1, "Eng", "", 0⟩],
   [⟨1, " Alice ", "alice@users.noreply.github.com", "", 0, 1⟩], 2, 2⟩

/-- `caseDbPadded` after `PUT /api/members/1` with an empty body. -/
def caseDbPaddedAfter : DB :=
  ⟨[⟨1, "Eng", "", 0⟩],
   [⟨1, "Alice", "alice@users.noreply.github.com", "", 0, 1⟩], 2, 2⟩

/-- A remote whose team listing succeeds but whose member fetches all
fail, exercising the rollback path after changes were staged. -/
def caseRemoteFailing : Remote :=
  ⟨.ok [⟨some "Eng", some "eng", none⟩, ⟨some "Ops", some "ops", none⟩],
   fun s => if s = "eng" then .ok [⟨some "alice", none, none⟩]
            else .error "API rate limit exceeded"⟩

/-- Team payloads of a healthy remote: two named teams (one of which
already exists locally in `caseDb`), plus an unnamed team object that
sync skips. -/
def caseRemoteOkTeams : List RemoteTeam :=
  [⟨some "Alpha", some "alpha", some "remote desc"⟩,
   ⟨none, some "ghost", none⟩,
   ⟨some "Beta", some "beta", none⟩]

/-- The healthy remote serving `caseRemoteOkTeams`. -/
def caseRemoteOk : Remote :=
  ⟨.ok caseRemoteOkTeams,
   fun s => if s = "alpha" then .ok [⟨some "alice", none, none⟩]
            else if s = "beta" then .ok [⟨some "bob", some "Bob", some "maintainer"⟩]
            else .error "unknown slug"⟩

/-- The database `syncGithub caseRemoteOk none "acme" 0 caseDb` commits. -/
def caseDbAfterOk : DB :=
  ⟨[⟨1, "Alpha", "remote desc", 0⟩, ⟨2, "Beta", "", 0⟩],
   [⟨2, "alice", "alice@users.noreply.github.com", "", 0, 1⟩,
    ⟨3, "Bob", "bob@users.noreply.github.com", "maintainer", 0, 2⟩], 3, 4⟩

/-- `caseDbAfterOk` after a second sync run at a later timestamp: the
member rows carry fresh ids and timestamps but identical data. -/
def caseDbAfterOk2 : DB :=
  ⟨[⟨1, "Alpha", "remote desc", 0⟩, ⟨2, "Beta", "", 0⟩],
   [⟨4, "alice", "alice@users.noreply.github.com", "", 1, 1⟩,
    ⟨5, "Bob", "bob@users.noreply.github.com", "maintainer", 1, 2⟩], 3, 6⟩

/-- A two-page listing for the pagination witness. -/
def casePageOne : PageResponse Nat :=
  ⟨200, none, .list [10, 11],
   "<https://api.github.com/orgs/acme/teams?page=2>; rel=\"next\", " ++
   "<https://api.github.com/orgs/acme/teams?page=2>; rel=\"last\""⟩

def casePageTwo : PageResponse Nat :=
  ⟨200, none, .list [12], "<https://api.github.com/orgs/acme/teams?page=1>; rel=\"prev\""⟩

/-- The fetch oracle serving the two pages above. -/
def caseFetch : String → Option Params → Option (PageResponse Nat) :=
  fun url _ =>
    if url = apiBaseUrl ++ "/orgs/acme/teams" then some casePageOne
    else if url = "https://api.github.com/orgs/acme/teams?page=2" then some casePageTwo
    else none

/-! ## Theorems -/

/-- Both filters of a boolean predicate partition a list's length. -/
theorem length_filter_partition {α : Type} (p : α → Bool) (l : List α) :
    (l.filter p).length + (l.filter (fun x => !(p x))).length = l.length := by
  induction l with
  | nil => rfl
  | cons a t ih =>
    by_cases h : p a = true
    · simp [List.filter_cons, h]
      omega
    · simp [List.filter_cons, h]
      omega

/-- Every run of `sync_github` either leaves the committed database
untouched and reports an error, or commits exactly the state the
reconciliation loop produced. -/
theorem syncGithub_cases (remote : Remote) (orgArg : Option String) (cfg : String)
    (now : Nat) (db : DB) :
    ((∃ e, (syncGithub remote orgArg cfg now db).result = .error e) ∧
      (syncGithub remote orgArg cfg now db).db = db) ∨
    (∃ ts st, remote.teamsResult = .ok ts ∧
      syncLoop remote (pyStrip (pyOr orgArg cfg)) now ts
        ⟨db, 0, 0, ["/orgs/" ++ pyStrip (pyOr orgArg cfg) ++ "/teams"]⟩ = .ok st ∧
      syncGithub remote orgArg cfg now db =
        ⟨.ok ⟨pyStrip (pyOr orgArg cfg), st.importedTeams, st.importedMembers⟩,
         st.db, st.requests⟩) := by
  simp only [syncGithub]
  split
  · exact .inl ⟨⟨_, rfl⟩, rfl⟩
  · split
    · exact .inl ⟨⟨_, rfl⟩, rfl⟩
    · rename_i ts hts
      split
      · exact .inl ⟨⟨_, rfl⟩, rfl⟩
      · exact .inl ⟨⟨_, rfl⟩, rfl⟩
      · rename_i st hloop
        exact .inr ⟨ts, st, hts, hloop, rfl⟩

/-- C1: the sync operation is atomic.  Whenever `sync_github` raises
(any `GitHubSyncError` or other exception, turned into the `.error`
result), `db.session.rollback()` leaves the committed database equal to
the state before the invocation; on success the single
`db.session.commit()` publishes exactly the state the reconciliation
loop built, so all changes land together. -/
theorem sync_rollback_on_error (remote : Remote) (orgArg : Option String) (cfg : String)
    (now : Nat) (db : DB) :
    (∀ e, (syncGithub remote orgArg cfg now db).result = .error e →
        (syncGithub remote orgArg cfg now db).db = db) ∧
    (∀ s, (syncGithub remote orgArg cfg now db).result = .ok s →
        ∃ ts st, remote.teamsResult = .ok ts ∧
          syncLoop remote (pyStrip (pyOr orgArg cfg)) now ts
            ⟨db, 0, 0, ["/orgs/" ++ pyStrip (pyOr orgArg cfg) ++ "/teams"]⟩ = .ok st ∧
          (syncGithub remote orgArg cfg now db).db = st.db ∧
          s = ⟨pyStrip (pyOr orgArg cfg), st.importedTeams, st.importedMembers⟩) := by
  rcases syncGithub_cases remote orgArg cfg now db with ⟨⟨e, he⟩, hdb⟩ | ⟨ts, st, hts, hloop, heq⟩
  · refine ⟨fun _ _ => hdb, fun s hs => ?_⟩
    rw [he] at hs
    cases hs
  · constructor
    · intro e he
      rw [heq] at he
      cases he
    · intro s hs
      rw [heq] at hs
      have hs' : (Except.ok
          (⟨pyStrip (pyOr orgArg cfg), st.importedTeams, st.importedMembers⟩ : Summary)
          : Except String Summary) = .ok s := hs
      injection hs' with h
      exact ⟨ts, st, hts, hloop, by rw [heq], h.symm⟩

/-- Witness for C1: with `caseRemoteFailing` the first remote team and
its member are staged, then the second team's member fetch fails; the
committed database is the original `caseDb`, so the staged team is gone. -/
theorem sync_rollback_on_error_witness :
    (syncGithub caseRemoteFailing none "acme" 0 caseDb).result =
      .error "API rate limit exceeded" ∧
    (syncGithub caseRemoteFailing none "acme" 0 caseDb).db = caseDb :=
  ⟨by decide, (sync_rollback_on_error caseRemoteFailing none "acme" 0 caseDb).1
      "API rate limit exceeded" (by decide)⟩

/-- C4: when no organization argument is given and the configured
default strips to the empty string, `sync_github` raises the
configuration `GitHubSyncError` with an empty request log — no outbound
call — and the database untouched. -/
theorem sync_missing_org_no_request (remote : Remote) (cfg : String) (now : Nat) (db : DB)
    (h : pyStrip cfg = "") :
    syncGithub remote none cfg now db = ⟨.error configErrorMsg, db, []⟩ := by
  simp [syncGithub, pyOr, h]

/-- Witness for C4 at a whitespace-only configured organization. -/
theorem sync_missing_org_no_request_witness :
    pyStrip " " = "" ∧
    syncGithub caseRemoteOk none " " 0 caseDb = ⟨.error configErrorMsg, caseDb, []⟩ :=
  ⟨by decide, sync_missing_org_no_request caseRemoteOk " " 0 caseDb (by decide)⟩

/-- C7: deleting a team removes that team row together with exactly the
members referencing it — every member of another team survives — while
deleting a member touches only that member row and never the `teams`
table. -/
theorem delete_team_cascade_exact (db : DB) (tid mid : Nat) :
    (∀ t, findTeam db tid = some t →
      ∃ db', deleteTeam db tid = .ok db' ∧
        db'.teams = db.teams.filter (fun u => u.id != tid) ∧
        db'.members = db.members.filter (fun m => m.teamId != tid) ∧
        db'.members.length + (db.members.filter (fun m => m.teamId == tid)).length
          = db.members.length ∧
        (∀ m ∈ db.members, m.teamId ≠ tid → m ∈ db'.members)) ∧
    (∀ m, findMember db mid = some m →
      ∃ db', deleteMember db mid = .ok db' ∧
        db'.teams = db.teams ∧
        db'.members = db.members.filter (fun u => u.id != mid)) := by
  constructor
  · intro t ht
    refine ⟨⟨db.teams.filter (fun u => u.id != tid),
            db.members.filter (fun m => m.teamId != tid),
            db.nextTeamId, db.nextMemberId⟩, ?_, rfl, rfl, ?_, ?_⟩
    · simp [deleteTeam, ht]
    · have hp := length_filter_partition (fun m : MemberRec => m.teamId == tid) db.members
      simp only [bne]
      omega
    · intro m hm hne
      simp only [List.mem_filter]
      exact ⟨hm, by simp [bne, hne]⟩
  · intro m hm
    exact ⟨⟨db.teams, db.members.filter (fun u => u.id != mid),
            db.nextTeamId, db.nextMemberId⟩, by simp [deleteMember, hm], rfl, rfl⟩

/-- Witness for C7 on `caseDb` (one team, one member). -/
theorem delete_team_cascade_exact_witness :
    findTeam caseDb 1 = some (⟨1, "Alpha", "Infra", 0⟩ : TeamRec) ∧
    findMember caseDb 1 = some (⟨1, "Ann", "ann@example.com", "lead", 0, 1⟩ : MemberRec) ∧
    (∃ db', deleteTeam caseDb 1 = .ok db' ∧
        db'.teams = caseDb.teams.filter (fun u => u.id != 1) ∧
        db'.members = caseDb.members.filter (fun m => m.teamId != 1) ∧
        db'.members.length + (caseDb.members.filter (fun m => m.teamId == 1)).length
          = caseDb.members.length ∧
        (∀ m ∈ caseDb.members, m.teamId ≠ 1 → m ∈ db'.members)) ∧
    (∃ db', deleteMember caseDb 1 = .ok db' ∧
        db'.teams = caseDb.teams ∧
        db'.members = caseDb.members.filter (fun u => u.id != 1)) :=
  ⟨by decide, by decide,
   (delete_team_cascade_exact caseDb 1 1).1 ⟨1, "Alpha", "Infra", 0⟩ (by decide),
   (delete_team_cascade_exact caseDb 1 1).2 ⟨1, "Ann", "ann@example.com", "lead", 0, 1⟩
     (by decide)⟩

/-- `pyOr` on an absent value yields the default. -/
theorem pyOr_none (y : String) : pyOr none y = y := rfl

/-- `pyOr` on an empty string also yields the default (Python `or`). -/
theorem pyOr_some_empty (y : String) : pyOr (some "") y = y := rfl

/-- Stripping the empty string. -/
theorem pyStrip_empty : pyStrip "" = "" := rfl

/-- A record found by primary key bears that key. -/
theorem findTeam_id {db : DB} {tid : Nat} {t : TeamRec}
    (h : findTeam db tid = some t) : t.id = tid := by
  have h' := List.find?_some h
  simpa using h'

/-- A member found by primary key bears that key. -/
theorem findMember_id {db : DB} {mid : Nat} {m : MemberRec}
    (h : findMember db mid = some m) : m.id = mid := by
  have h' := List.find?_some h
  simpa using h'

/-- After replacing every element whose key matches by `x'` (itself
matching), `find?` by key returns `x'`, provided it found something
before. -/
theorem find?_map_replace {α : Type} (key : α → Nat) (l : List α) (k : Nat) (x' : α)
    (hk : key x' = k) :
    ∀ m, l.find? (fun u => key u == k) = some m →
      (l.map (fun u => if key u == k then x' else u)).find? (fun u => key u == k)
        = some x' := by
  induction l with
  | nil => intro m h; cases h
  | cons a t ih =>
    intro m h
    by_cases ha : key a = k
    · have hmap : (if key a == k then x' else a) = x' := by simp [ha]
      rw [List.map_cons, hmap, List.find?_cons_of_pos _ (by simp [hk])]
    · rw [List.find?_cons_of_neg _ (by simp [ha])] at h
      rw [List.map_cons, if_neg (by simp [ha]), List.find?_cons_of_neg _ (by simp [ha])]
      exact ih m h

/-- `update_team` when the `name` field falls back to the stored name
via Python `or` (the field is omitted, `null`, or the empty string) and
the stored name is already trimmed: the row keeps its name, and the
description is replaced by the request's (trimmed, empty default). -/
theorem updateTeam_name_fallback (db : DB) (tid : Nat) (t : TeamRec)
    (nameArg dreq : Option String)
    (hf : findTeam db tid = some t)
    (harg : pyOr nameArg t.name = t.name)
    (hstrip : pyStrip t.name = t.name) (hne : t.name ≠ "")
    (hconf : db.teams.find? (fun u => u.id != tid && u.name == t.name) = none) :
    updateTeam db tid ⟨nameArg, dreq⟩ =
      .ok (⟨db.teams.map (fun u => if u.id == tid then
              ⟨t.id, t.name, pyStrip (pyOr dreq ""), t.createdAt⟩ else u),
            db.members, db.nextTeamId, db.nextMemberId⟩,
           ⟨t.id, t.name, pyStrip (pyOr dreq ""), t.createdAt⟩) := by
  simp [updateTeam, hf, harg, hstrip, hne, hconf]

/-- `update_member` with an empty request body: name and email are
re-stripped in place, the role is reset to the empty string. -/
theorem updateMember_all_omitted (db : DB) (mid : Nat) (m : MemberRec)
    (hf : findMember db mid = some m)
    (hname : pyStrip m.name ≠ "") (hemail : pyStrip m.email ≠ "") :
    updateMember db mid ⟨none, none, none⟩ =
      .ok (⟨db.teams,
            db.members.map (fun u => if u.id == mid then
              ⟨m.id, pyStrip m.name, pyStrip m.email, "", m.joinedAt, m.teamId⟩ else u),
            db.nextTeamId, db.nextMemberId⟩,
           ⟨m.id, pyStrip m.name, pyStrip m.email, "", m.joinedAt, m.teamId⟩) := by
  simp [updateMember, hf, pyOr_none, pyStrip_empty, hname, hemail]

/-- C8: creating a team whose trimmed name equals an existing team's
name (an exact, case-sensitive match) always fails with the conflict
error and inserts nothing; when no team carries exactly that name —
e.g. one differing only in letter case — creation succeeds. -/
theorem create_team_case_sensitive_conflict (db : DB) (data : TeamPayload) (now : Nat) :
    (pyStrip (pyOr data.name "") ≠ "" →
      (∃ t ∈ db.teams, t.name = pyStrip (pyOr data.name "")) →
      createTeam db data now = .error (.conflict "A team with this name already exists.")) ∧
    (pyStrip (pyOr data.name "") ≠ "" →
      (∀ t ∈ db.teams, t.name ≠ pyStrip (pyOr data.name "")) →
      ∃ tm db', createTeam db data now = .ok (db', tm) ∧
        tm.name = pyStrip (pyOr data.name "") ∧
        db'.teams = db.teams ++ [tm]) := by
  constructor
  · rintro hne ⟨t, htmem, htname⟩
    have hfind : (db.teams.find? (fun u => u.name == pyStrip (pyOr data.name ""))).isSome := by
      rw [List.find?_isSome]
      exact ⟨t, htmem, by simp [htname]⟩
    simp [createTeam, hne, hfind]
  · intro hne hnone
    have hfind : db.teams.find? (fun u => u.name == pyStrip (pyOr data.name "")) = none := by
      rw [List.find?_eq_none]
      intro x hx
      simp [hnone x hx]
    refine ⟨⟨db.nextTeamId, pyStrip (pyOr data.name ""), pyStrip (pyOr data.description ""), now⟩,
      ⟨db.teams ++ [⟨db.nextTeamId, pyStrip (pyOr data.name ""),
         pyStrip (pyOr data.description ""), now⟩],
       db.members, db.nextTeamId + 1, db.nextMemberId⟩, ?_, rfl, rfl⟩
    simp [createTeam, hne, hfind]

/-- Witness for C8 on `caseDb`: " Alpha " trims into an exact conflict
with the stored "Alpha", while "alpha" (same letters, different case)
is accepted. -/
theorem create_team_case_sensitive_conflict_witness :
    pyStrip (pyOr (some " Alpha ") "") = "Alpha" ∧
    (∃ t ∈ caseDb.teams, t.name = pyStrip (pyOr (some " Alpha ") "")) ∧
    createTeam caseDb ⟨some " Alpha ", none⟩ 5 =
      .error (.conflict "A team with this name already exists.") ∧
    (∃ tm db', createTeam caseDb ⟨some "alpha", none⟩ 5 = .ok (db', tm) ∧
      tm.name = pyStrip (pyOr (some "alpha") "") ∧
      db'.teams = caseDb.teams ++ [tm]) :=
  ⟨by decide, by decide,
   (create_team_case_sensitive_conflict caseDb ⟨some " Alpha ", none⟩ 5).1
     (by decide) (by decide),
   (create_team_case_sensitive_conflict caseDb ⟨some "alpha", none⟩ 5).2
     (by decide) (by decide)⟩

/-- Counterexample to C2 as stated: in `PUT /api/teams/1` with both
fields omitted, the stored description is nonetheless changed from
"Infra" to the empty string (the handler always recomputes it as
`(data.get("description") or "").strip()`). -/
theorem update_team_description_reset_cex :
    (findTeam caseDb 1).map TeamRec.description = some "Infra" ∧
    updateTeam caseDb 1 ⟨none, none⟩ =
      .ok (caseDbNoDesc, ⟨1, "Alpha", "", 0⟩) ∧
    (findTeam caseDbNoDesc 1).map TeamRec.description = some "" := by
  refine ⟨by decide, by decide, by decide⟩

/-- C2 corrected: an omitted team `name` and omitted member
`name`/`email` are indeed retained (exactly, whenever the stored values
are already trimmed, as every value written by the handlers is), but an
omitted team `description` and an omitted member `role` are reset to
the empty string rather than retained. -/
theorem update_omitted_fields_amended (db : DB) (tid mid : Nat) (t : TeamRec)
    (m : MemberRec) (dreq : Option String) :
    (findTeam db tid = some t → pyStrip t.name = t.name → t.name ≠ "" →
      db.teams.find? (fun u => u.id != tid && u.name == t.name) = none →
      ∃ p, updateTeam db tid ⟨none, dreq⟩ = .ok p ∧
        p.2.id = t.id ∧ p.2.name = t.name ∧
        p.2.description = pyStrip (pyOr dreq "") ∧
        findTeam p.1 tid = some p.2 ∧
        p.1.members = db.members) ∧
    (findMember db mid = some m → pyStrip m.name = m.name → pyStrip m.email = m.email →
      m.name ≠ "" → m.email ≠ "" →
      ∃ p, updateMember db mid ⟨none, none, none⟩ = .ok p ∧
        p.2.id = m.id ∧ p.2.name = m.name ∧ p.2.email = m.email ∧ p.2.role = "" ∧
        findMember p.1 mid = some p.2 ∧
        p.1.teams = db.teams) := by
  constructor
  · intro hf hstrip hne hconf
    refine ⟨_, updateTeam_name_fallback db tid t none dreq hf (by rw [pyOr_none]) hstrip hne hconf,
      rfl, rfl, rfl, ?_, rfl⟩
    exact find?_map_replace TeamRec.id db.teams tid _ (by simpa using findTeam_id hf) t
      (by simpa [findTeam] using hf)
  · intro hf hsname hsemail hne hee
    refine ⟨_, updateMember_all_omitted db mid m hf (by rw [hsname]; exact hne)
      (by rw [hsemail]; exact hee), rfl, ?_, ?_, rfl, ?_, rfl⟩
    · exact hsname
    · exact hsemail
    · exact find?_map_replace MemberRec.id db.members mid _ (by simpa using findMember_id hf) m
        (by simpa [findMember] using hf)

/-- Witness for the corrected C2 on `caseDb`. -/
theorem update_omitted_fields_amended_witness :
    (∃ p, updateTeam caseDb 1 ⟨none, some "  New desc "⟩ = .ok p ∧
      p.2.id = 1 ∧ p.2.name = "Alpha" ∧
      p.2.description = pyStrip (pyOr (some "  New desc ") "") ∧
      findTeam p.1 1 = some p.2 ∧
      p.1.members = caseDb.members) ∧
    (∃ p, updateMember caseDb 1 ⟨none, none, none⟩ = .ok p ∧
      p.2.id = 1 ∧ p.2.name = "Ann" ∧ p.2.email = "ann@example.com" ∧ p.2.role = "" ∧
      findMember p.1 1 = some p.2 ∧
      p.1.teams = caseDb.teams) :=
  ⟨(update_omitted_fields_amended caseDb 1 1 ⟨1, "Alpha", "Infra", 0⟩
      ⟨1, "Ann", "ann@example.com", "lead", 0, 1⟩ (some "  New desc ")).1
      (by decide) (by decide) (by decide) (by decide),
   (update_omitted_fields_amended caseDb 1 1 ⟨1, "Alpha", "Infra", 0⟩
      ⟨1, "Ann", "ann@example.com", "lead", 0, 1⟩ (some "  New desc ")).2
      (by decide) (by decide) (by decide) (by decide) (by decide)⟩

/-- Counterexample to C5 as stated: a `name` field given as the empty
string does not fail with the validation error — Python's
`data.get("name") or team.name` treats `""` as falsy, falls back to the
stored name, and the update succeeds. -/
theorem update_team_empty_name_accepted_cex :
    updateTeam caseDb 1 ⟨some "", some "Infra"⟩ =
      .ok (caseDb, ⟨1, "Alpha", "Infra", 0⟩) := by decide

/-- C5 corrected: a given name that is non-empty but whitespace-only
fails with the validation error (and, the error path touching nothing,
the stored name is unchanged); a given name that is exactly the empty
string is instead treated like an omitted field — the update succeeds
and the stored name is kept. -/
theorem update_team_blank_name_amended (db : DB) (tid : Nat) (t : TeamRec) (s : String)
    (dreq : Option String) :
    (findTeam db tid = some t → s ≠ "" → pyStrip s = "" →
      updateTeam db tid ⟨some s, dreq⟩ =
        .error (.validation "Team name is required.")) ∧
    (findTeam db tid = some t → pyStrip t.name = t.name → t.name ≠ "" →
      db.teams.find? (fun u => u.id != tid && u.name == t.name) = none →
      ∃ p, updateTeam db tid ⟨some "", dreq⟩ = .ok p ∧ p.2.name = t.name ∧
        findTeam p.1 tid = some p.2) := by
  constructor
  · intro hf hs hstrip
    simp [updateTeam, hf, pyOr, hs, hstrip]
  · intro hf hstrip hne hconf
    refine ⟨_, updateTeam_name_fallback db tid t (some "") dreq hf
      (by rw [pyOr_some_empty]) hstrip hne hconf, rfl, ?_⟩
    exact find?_map_replace TeamRec.id db.teams tid _ (by simpa using findTeam_id hf) t
      (by simpa [findTeam] using hf)

/-- Witness for the corrected C5: a whitespace-only name " " is
rejected, the empty-string name is silently retained. -/
theorem update_team_blank_name_amended_witness :
    updateTeam caseDb 1 ⟨some " ", none⟩ =
      .error (.validation "Team name is required.") ∧
    (∃ p, updateTeam caseDb 1 ⟨some "", none⟩ = .ok p ∧ p.2.name = "Alpha" ∧
      findTeam p.1 1 = some p.2) :=
  ⟨(update_team_blank_name_amended caseDb 1 ⟨1, "Alpha", "Infra", 0⟩ " " none).1
     (by decide) (by decide) (by decide),
   (update_team_blank_name_amended caseDb 1 ⟨1, "Alpha", "Infra", 0⟩ "" none).2
     (by decide) (by decide) (by decide) (by decide)⟩

/-- Counterexample to C6 as stated: sync can store a member name with
surrounding whitespace (`member_payload.get("name")` is not stripped),
and for such a member an update omitting `name` does not keep the
stored value — it strips it, from " Alice " to "Alice". -/
theorem update_member_untrimmed_name_cex :
    (syncGithub caseRemotePadded (some "acme") "" 0 ⟨[], [], 1, 1⟩).db = caseDbPadded ∧
    (findMember caseDbPadded 1).map MemberRec.name = some " Alice " ∧
    updateMember caseDbPadded 1 ⟨none, none, none⟩ =
      .ok (caseDbPaddedAfter, ⟨1, "Alice", "alice@users.noreply.github.com", "", 0, 1⟩) ∧
    (findMember caseDbPaddedAfter 1).map MemberRec.name = some "Alice" := by
  refine ⟨by decide, by decide, by decide, by decide⟩

/-- C6 corrected: an update omitting `role` always resets the stored
role to the empty string whatever its prior value, and an update
omitting `name`/`email` stores the trimmed prior values — the prior
values themselves exactly when they are already trimmed. -/
theorem update_member_role_reset_amended (db : DB) (mid : Nat) (m : MemberRec)
    (hf : findMember db mid = some m)
    (hname : pyStrip m.name ≠ "") (hemail : pyStrip m.email ≠ "") :
    ∃ p, updateMember db mid ⟨none, none, none⟩ = .ok p ∧
      p.2.role = "" ∧ p.2.name = pyStrip m.name ∧ p.2.email = pyStrip m.email ∧
      findMember p.1 mid = some p.2 := by
  refine ⟨_, updateMember_all_omitted db mid m hf hname hemail, rfl, rfl, rfl, ?_⟩
  exact find?_map_replace MemberRec.id db.members mid _ (by simpa using findMember_id hf) m
    (by simpa [findMember] using hf)

/-- Witness for the corrected C6 on `caseDb`: the member's role "lead"
is wiped by an empty update body while name and email survive. -/
theorem update_member_role_reset_amended_witness :
    ∃ p, updateMember caseDb 1 ⟨none, none, none⟩ = .ok p ∧
      p.2.role = "" ∧ p.2.name = pyStrip "Ann" ∧ p.2.email = pyStrip "ann@example.com" ∧
      findMember p.1 1 = some p.2 :=
  update_member_role_reset_amended caseDb 1 ⟨1, "Ann", "ann@example.com", "lead", 0, 1⟩
    (by decide) (by decide) (by decide)

/-- A successful loop iteration bumps `imported_teams` exactly when the
remote team payload has a truthy name. -/
theorem syncTeamStep_ok_importedTeams {remote : Remote} {org : String} {now : Nat}
    {st : LoopState} {tp : RemoteTeam} {st' : LoopState}
    (h : syncTeamStep remote org now st tp = .ok st') :
    st'.importedTeams =
      if pyTruthy tp.name then st.importedTeams + 1 else st.importedTeams := by
  cases htp : tp.name with
  | none =>
    simp only [syncTeamStep, htp] at h
    cases h
    simp [pyTruthy, htp]
  | some s =>
    by_cases hs : s = ""
    · subst hs
      simp only [syncTeamStep, htp, if_pos rfl] at h
      cases h
      simp [pyTruthy, htp]
    · simp only [syncTeamStep, htp, if_neg hs] at h
      cases hslug : tp.slug with
      | none =>
        simp only [hslug] at h
        cases h
      | some slug =>
        simp only [hslug] at h
        cases hms : remote.membersResult slug with
        | error msg =>
          simp only [hms] at h
          cases h
        | ok ms =>
          simp only [hms] at h
          cases h
          simp [pyTruthy, htp, hs]

/-- Over a successful run of the whole loop, `imported_teams` grows by
the number of truthy-named remote teams. -/
theorem syncLoop_importedTeams (remote : Remote) (org : String) (now : Nat) :
    ∀ (ts : List RemoteTeam) (st st' : LoopState),
      syncLoop remote org now ts st = .ok st' →
      st'.importedTeams =
        st.importedTeams + (ts.filter (fun tp => pyTruthy tp.name)).length := by
  intro ts
  induction ts with
  | nil =>
    intro st st' h
    cases h
    simp
  | cons tp rest ih =>
    intro st st' h
    simp only [syncLoop] at h
    cases hstep : syncTeamStep remote org now st tp with
    | error e => rw [hstep] at h; cases h
    | ok st1 =>
      rw [hstep] at h
      have h1 := syncTeamStep_ok_importedTeams hstep
      have h2 := ih st1 st' h
      by_cases htr : pyTruthy tp.name = true
      · rw [if_pos htr] at h1
        simp [List.filter_cons, htr, h2, h1]
        omega
      · rw [if_neg htr] at h1
        simp [List.filter_cons, htr, h2, h1]

/-- C10: the summary's `teams` count equals the number of remote team
payloads with a truthy name — a team found locally counts the same as a
newly created one (it is not the count of newly created rows). -/
theorem sync_summary_counts_all_remote_teams (remote : Remote) (orgArg : Option String)
    (cfg : String) (now : Nat) (db : DB) (ts : List RemoteTeam) (s : Summary)
    (db' : DB) (reqs : List String)
    (hts : remote.teamsResult = .ok ts)
    (hrun : syncGithub remote orgArg cfg now db = ⟨.ok s, db', reqs⟩) :
    s.teams = (ts.filter (fun tp => pyTruthy tp.name)).length := by
  rcases syncGithub_cases remote orgArg cfg now db with ⟨⟨e, he⟩, -⟩ | ⟨ts', st, hts', hloop, heq⟩
  · rw [hrun] at he
    cases he
  · rw [hts] at hts'
    injection hts' with hts''
    subst hts''
    rw [hrun] at heq
    have hsum : (Except.ok s : Except String Summary) =
        .ok (⟨pyStrip (pyOr orgArg cfg), st.importedTeams, st.importedMembers⟩ : Summary) :=
      congrArg SyncResult.result heq
    injection hsum with hsum'
    have hcount := syncLoop_importedTeams remote (pyStrip (pyOr orgArg cfg)) now ts _ st hloop
    rw [hsum']
    simpa using hcount

/-- Witness for C10: three remote team payloads — "Alpha" already local
in `caseDb`, an unnamed object, and a fresh "Beta" — give a summary
count of 2, although only one new local team row is created. -/
theorem sync_summary_counts_all_remote_teams_witness :
    syncGithub caseRemoteOk none "acme" 0 caseDb =
      ⟨.ok ⟨"acme", 2, 2⟩, caseDbAfterOk,
       ["/orgs/acme/teams", "/orgs/acme/teams/alpha/members",
        "/orgs/acme/teams/beta/members"]⟩ ∧
    (⟨"acme", 2, 2⟩ : Summary).teams =
      (caseRemoteOkTeams.filter (fun tp => pyTruthy tp.name)).length :=
  ⟨by decide,
   sync_summary_counts_all_remote_teams caseRemoteOk none "acme" 0 caseDb
     caseRemoteOkTeams ⟨"acme", 2, 2⟩ caseDbAfterOk
     ["/orgs/acme/teams", "/orgs/acme/teams/alpha/members",
      "/orgs/acme/teams/beta/members"]
     (by decide) (by decide)⟩

/-- A falsy URL (absent or empty) ends the pagination loop at once with
the accumulated items. -/
theorem paginatedLoop_done {α : Type}
    (fetch : String → Option Params → Option (PageResponse α)) (fuel : Nat)
    (u : Option String) (qp : Option Params) (acc : List α) (log : List Request)
    (hu : pyTruthy u = false) :
    paginatedLoop fetch fuel u qp acc log = (.ok acc, log) := by
  cases fuel with
  | zero => simp [paginatedLoop, hu]
  | succ n =>
    cases u with
    | none => simp [paginatedLoop]
    | some s =>
      have hs : s = "" := by simpa [pyTruthy] using hu
      subst hs
      simp [paginatedLoop]

/-- Along a `ChainOk` chain with enough fuel, the loop returns all
pages' items in order and issues one request per page, the first with
the initial query parameters and every later one with none. -/
theorem paginatedLoop_chain {α : Type}
    (fetch : String → Option Params → Option (PageResponse α)) :
    ∀ (chain : List (String × PageResponse α)) (url : String) (resp : PageResponse α)
      (qp : Option Params) (acc : List α) (log : List Request) (fuel : Nat),
      ChainOk fetch qp ((url, resp) :: chain) → chain.length + 1 ≤ fuel →
      paginatedLoop fetch fuel (some url) qp acc log =
        (.ok (acc ++ (((url, resp) :: chain).map (fun c => c.2.payload.items)).flatten),
         log ++ (url, qp) :: chain.map (fun c => (c.1, none))) := by
  intro chain
  induction chain with
  | nil =>
    intro url resp qp acc log fuel hok hfuel
    obtain ⟨hne, hfetch, hstatus, hlast, -⟩ := hok
    match fuel, hfuel with
    | fuel + 1, _ =>
      simp only [paginatedLoop, if_neg hne, hfetch]
      rw [if_neg (by omega : ¬ resp.status ≥ 400), hlast,
        paginatedLoop_done fetch fuel none none _ _ (by simp [pyTruthy])]
      simp
  | cons c rest ih =>
    intro url resp qp acc log fuel hok hfuel
    obtain ⟨hne, hfetch, hstatus, hnext, htail⟩ := hok
    obtain ⟨url2, resp2⟩ := c
    match fuel, hfuel with
    | fuel + 1, hfuel =>
      simp only [paginatedLoop, if_neg hne, hfetch]
      rw [if_neg (by omega : ¬ resp.status ≥ 400), hnext,
        ih url2 resp2 none (acc ++ resp.payload.items) (log ++ [(url, qp)]) fuel htail
          (by simpa using Nat.succ_le_succ_iff.mp hfuel)]
      simp

/-- C9: `github_paginated_get` sends the page-size query parameters
only on the first request (all later requests carry none), follows the
URL of the `rel="next"` directive parsed out of the comma-separated
Link header after each response, stops at the page without such a
directive, and returns the concatenation of all pages' items in order. -/
theorem paginated_get_follows_next_links {α : Type}
    (fetch : String → Option Params → Option (PageResponse α)) (path : String)
    (params : Params) (resp : PageResponse α)
    (rest : List (String × PageResponse α)) (fuel : Nat)
    (hok : ChainOk fetch (some params) ((apiBaseUrl ++ path, resp) :: rest))
    (hfuel : rest.length + 1 ≤ fuel) :
    githubPaginatedGet fetch fuel path (some params) =
      (.ok ((((apiBaseUrl ++ path, resp) :: rest).map (fun c => c.2.payload.items)).flatten),
       (apiBaseUrl ++ path, some params) :: rest.map (fun c => (c.1, none))) := by
  have h := paginatedLoop_chain fetch rest (apiBaseUrl ++ path) resp (some params)
    [] [] fuel hok hfuel
  simpa [githubPaginatedGet] using h

/-- Witness for C9: a two-page chain — the first Link header carries
both a `rel="next"` and a `rel="last"` directive, the second only a
`rel="prev"` — yields the items of both pages once each, with the
page-size parameters sent on the first request only. -/
theorem paginated_get_follows_next_links_witness :
    ChainOk caseFetch (some [("per_page", "100")])
      [(apiBaseUrl ++ "/orgs/acme/teams", casePageOne),
       ("https://api.github.com/orgs/acme/teams?page=2", casePageTwo)] ∧
    githubPaginatedGet caseFetch 2 "/orgs/acme/teams" (some [("per_page", "100")]) =
      (.ok [10, 11, 12],
       [(apiBaseUrl ++ "/orgs/acme/teams", some [("per_page", "100")]),
        ("https://api.github.com/orgs/acme/teams?page=2", none)]) := by
  have hok : ChainOk caseFetch (some [("per_page", "100")])
      [(apiBaseUrl ++ "/orgs/acme/teams", casePageOne),
       ("https://api.github.com/orgs/acme/teams?page=2", casePageTwo)] :=
    ⟨by decide, by decide, by decide, by decide,
     by decide, by decide, by decide, by decide, trivial⟩
  refine ⟨hok, ?_⟩
  rw [paginated_get_follows_next_links caseFetch "/orgs/acme/teams"
    [("per_page", "100")] casePageOne
    [("https://api.github.com/orgs/acme/teams?page=2", casePageTwo)] 2 hok (by decide)]
  decide

/-! ### Facts about one reconciliation iteration, towards C3 -/

/-- Two databases with the same teams table and counter agree on `dbWF`. -/
theorem dbWF_of_teams_eq {db db' : DB} (h1 : db'.teams = db.teams)
    (h2 : db'.nextTeamId = db.nextTeamId) (hwf : dbWF db) : dbWF db' := by
  unfold dbWF at *
  rw [h1, h2]
  exact hwf

/-- `teamByName` only looks at the teams table. -/
theorem teamByName_congr {db db' : DB} (h : db'.teams = db.teams) (n : String) :
    teamByName db' n = teamByName db n := by
  unfold teamByName
  rw [h]

/-- `teamMembersData` only looks at the members table. -/
theorem teamMembersData_congr {db db' : DB} (h : db'.members = db.members) (tid : Nat) :
    teamMembersData db' tid = teamMembersData db tid := by
  unfold teamMembersData
  rw [h]

/-- `upsertTeam` never touches the members table or its counter. -/
theorem upsertTeam_members (db : DB) (n d : String) (now : Nat) :
    (upsertTeam db n d now).2.members = db.members := by
  unfold upsertTeam
  cases db.teams.find? (fun t => t.name == n) <;> rfl

/-- `upsertTeam` keeps the teams counter at least as large. -/
theorem upsertTeam_teams_counter (db : DB) (n d : String) (now : Nat) :
    db.nextTeamId ≤ (upsertTeam db n d now).2.nextTeamId := by
  unfold upsertTeam
  cases db.teams.find? (fun t => t.name == n) <;> simp

/-- Replacing, in a list, every row that shares the found row's id by a
row with the looked-up name makes the name lookup return the
replacement. -/
theorem find?_name_map_self (l : List TeamRec) (t team : TeamRec) (n : String)
    (h : l.find? (fun u => u.name == n) = some t) (hteam : team.name = n) :
    (l.map (fun u => if u.id == t.id then team else u)).find? (fun u => u.name == n)
      = some team := by
  induction l with
  | nil => cases h
  | cons a rest ih =>
    by_cases han : a.name = n
    · rw [List.find?_cons_of_pos _ (by simp [han])] at h
      injection h with h
      subst h
      rw [List.map_cons, if_pos (by simp)]
      exact List.find?_cons_of_pos _ (by simp [hteam])
    · rw [List.find?_cons_of_neg _ (by simp [han])] at h
      rw [List.map_cons]
      by_cases ha : a.id = t.id
      · rw [if_pos (by simp [ha])]
        exact List.find?_cons_of_pos _ (by simp [hteam])
      · rw [if_neg (by simp [ha]), List.find?_cons_of_neg _ (by simp [han])]
        exact ih h

/-- When only rows with the id of a row named `t.name ≠ m` are replaced
(by a row with the same name) and ids identify rows, a lookup for `m`
is unaffected. -/
theorem find?_name_map_ne (l : List TeamRec) (t team : TeamRec) (m : String)
    (hinj : ∀ u ∈ l, u.id = t.id → u = t)
    (hteam : team.name = t.name) (hne : t.name ≠ m) :
    (l.map (fun u => if u.id == t.id then team else u)).find? (fun u => u.name == m)
      = l.find? (fun u => u.name == m) := by
  induction l with
  | nil => rfl
  | cons a rest ih =>
    have hinj' : ∀ u ∈ rest, u.id = t.id → u = t :=
      fun u hu => hinj u (List.mem_cons_of_mem a hu)
    rw [List.map_cons]
    by_cases ha : a.id = t.id
    · have haa : a = t := hinj a (List.mem_cons_self a rest) ha
      rw [if_pos (by simp [ha])]
      rw [List.find?_cons_of_neg _ (by simp [hteam, hne]),
        List.find?_cons_of_neg _ (by simp [haa, hne])]
      exact ih hinj'
    · rw [if_neg (by simp [ha])]
      by_cases ham : a.name = m
      · rw [List.find?_cons_of_pos _ (by simp [ham]), List.find?_cons_of_pos _ (by simp [ham])]
      · rw [List.find?_cons_of_neg _ (by simp [ham]), List.find?_cons_of_neg _ (by simp [ham])]
        exact ih hinj'

/-- After an upsert, looking up the upserted name finds the upserted
row. -/
theorem upsertTeam_find_self (db : DB) (n d : String) (now : Nat) :
    teamByName (upsertTeam db n d now).2 n = some (upsertTeam db n d now).1 := by
  unfold upsertTeam teamByName
  cases hf : db.teams.find? (fun t => t.name == n) with
  | none =>
    simp only [List.find?_append, hf, Option.none_or]
    simp
  | some t =>
    have htname : t.name = n := by simpa using List.find?_some hf
    exact find?_name_map_self db.teams t _ n hf htname

/-- An upsert of name `n` leaves the lookup of any other name `m`
unchanged (well-formedness makes ids identify rows). -/
theorem upsertTeam_find_other (db : DB) (n d : String) (now : Nat) (m : String)
    (hwf : dbWF db) (hne : n ≠ m) :
    teamByName (upsertTeam db n d now).2 m = teamByName db m := by
  unfold upsertTeam teamByName
  cases hf : db.teams.find? (fun t => t.name == n) with
  | none =>
    simp only [List.find?_append]
    have hnew : (List.find? (fun u => u.name == m)
        [(⟨db.nextTeamId, n, d, now⟩ : TeamRec)]) = none := by
      simp [hne]
    rw [hnew]
    cases db.teams.find? (fun u => u.name == m) <;> rfl
  | some t =>
    have htmem := List.mem_of_find?_eq_some hf
    have htname : t.name = n := by simpa using List.find?_some hf
    apply find?_name_map_ne
    · intro u hu hid
      exact List.inj_on_of_nodup_map hwf.1 hu htmem (by simpa using hid)
    · rfl
    · rw [htname]; exact hne

/-- The id of the upserted row differs from that of any team of another
name. -/
theorem upsertTeam_id_ne (db : DB) (n d : String) (now : Nat) (m : String) (T : TeamRec)
    (hwf : dbWF db) (hne : n ≠ m) (hT : teamByName db m = some T) :
    (upsertTeam db n d now).1.id ≠ T.id := by
  obtain ⟨hids, hnames, hlt⟩ := hwf
  have hTmem := List.mem_of_find?_eq_some hT
  have hTname : T.name = m := by simpa using List.find?_some hT
  unfold upsertTeam
  cases hf : db.teams.find? (fun t => t.name == n) with
  | none =>
    have := hlt T hTmem
    simp only []
    omega
  | some t =>
    have htmem := List.mem_of_find?_eq_some hf
    have htname : t.name = n := by simpa using List.find?_some hf
    intro heq
    have hid : t.id = T.id := by simpa using heq
    have hTt : t = T := List.inj_on_of_nodup_map hids htmem hTmem (by simpa using hid)
    exact hne (by rw [← htname, hTt, hTname])

/-- Upserting preserves storage well-formedness. -/
theorem upsertTeam_wf (db : DB) (n d : String) (now : Nat) (hwf : dbWF db) :
    dbWF (upsertTeam db n d now).2 := by
  obtain ⟨hids, hnames, hlt⟩ := hwf
  unfold upsertTeam
  cases hf : db.teams.find? (fun t => t.name == n) with
  | none =>
    refine ⟨?_, ?_, ?_⟩
    · simp only [List.map_append, List.nodup_append]
      refine ⟨hids, by simp, ?_⟩
      intro x hx hx2
      simp only [List.map_cons, List.map_nil, List.mem_singleton] at hx2
      subst hx2
      obtain ⟨u, hu, hux⟩ := List.mem_map.mp hx
      have := hlt u hu
      omega
    · simp only [List.map_append, List.nodup_append]
      refine ⟨hnames, by simp, ?_⟩
      intro x hx hx2
      simp only [List.map_cons, List.map_nil, List.mem_singleton] at hx2
      subst hx2
      obtain ⟨u, hu, hux⟩ := List.mem_map.mp hx
      have hun := List.find?_eq_none.mp hf u hu
      simp [hux] at hun
    · intro u hu
      rcases List.mem_append.mp hu with h | h
      · exact Nat.lt_succ_of_lt (hlt u h)
      · simp only [List.mem_singleton] at h
        subst h
        exact Nat.lt_succ_self _
  | some t =>
    have htmem := List.mem_of_find?_eq_some hf
    have hinj : ∀ u ∈ db.teams, u.id = t.id → u = t := fun u hu hid =>
      List.inj_on_of_nodup_map hids hu htmem (by simpa using hid)
    have hidmap : (db.teams.map (fun u =>
        if u.id == t.id then { t with description := d } else u)).map (fun u => u.id)
        = db.teams.map (fun u => u.id) := by
      rw [List.map_map]
      apply List.map_congr_left
      intro u hu
      by_cases h : u.id = t.id
      · simp [Function.comp, h]
      · simp [Function.comp, h]
    have hnamemap : (db.teams.map (fun u =>
        if u.id == t.id then { t with description := d } else u)).map (fun u => u.name)
        = db.teams.map (fun u => u.name) := by
      rw [List.map_map]
      apply List.map_congr_left
      intro u hu
      by_cases h : u.id = t.id
      · have := hinj u hu h
        subst this
        simp
      · simp [Function.comp, h]
    refine ⟨?_, ?_, ?_⟩
    · simp only []
      rw [hidmap]
      exact hids
    · simp only []
      rw [hnamemap]
      exact hnames
    · intro u hu
      simp only [List.mem_map] at hu
      obtain ⟨v, hv, hvu⟩ := hu
      rw [← hvu]
      have hid : (if v.id == t.id then ({ t with description := d } : TeamRec) else v).id
          = v.id := by
        by_cases h : v.id = t.id
        · simp [h]
        · simp [h]
      rw [hid]
      exact hlt v hv

/-- Clearing leaves the named team's member data empty. -/
theorem clearTeamMembers_data_self (db : DB) (tid : Nat) :
    teamMembersData (clearTeamMembers db tid) tid = [] := by
  unfold clearTeamMembers teamMembersData
  simp only [List.filter_filter]
  have : List.filter (fun m => m.teamId == tid && m.teamId != tid) db.members = [] := by
    rw [List.filter_eq_nil_iff]
    intro a _
    by_cases h : a.teamId = tid <;> simp [h]
  rw [this]
  rfl

/-- Clearing one team's members leaves other teams' member data alone. -/
theorem clearTeamMembers_data_ne (db : DB) (tid tid2 : Nat) (hne : tid2 ≠ tid) :
    teamMembersData (clearTeamMembers db tid) tid2 = teamMembersData db tid2 := by
  unfold clearTeamMembers teamMembersData
  simp only [List.filter_filter]
  congr 1
  apply List.filter_congr
  intro a _
  by_cases h : a.teamId = tid2
  · simp [h, hne]
  · simp [h]

/-- Clearing does not touch the teams table. -/
theorem clearTeamMembers_teams (db : DB) (tid : Nat) :
    (clearTeamMembers db tid).teams = db.teams := rfl

/-- One member insertion: frame on the teams table. -/
theorem addSyncMember_teams (now tid : Nat) (st : DB × Nat) (mp : RemoteMember) :
    (addSyncMember now tid st mp).1.teams = st.1.teams ∧
    (addSyncMember now tid st mp).1.nextTeamId = st.1.nextTeamId := by
  unfold addSyncMember
  cases mp.login with
  | none => exact ⟨rfl, rfl⟩
  | some login => by_cases h : login = "" <;> simp [h]

/-- One member insertion appends exactly the derived entry to the
team's member data. -/
theorem addSyncMember_data_eq (now tid : Nat) (st : DB × Nat) (mp : RemoteMember) :
    teamMembersData (addSyncMember now tid st mp).1 tid =
      teamMembersData st.1 tid ++ derivedMembersData [mp] := by
  cases hl : mp.login with
  | none => simp [addSyncMember, derivedMembersData, hl]
  | some login =>
    by_cases h : login = ""
    · simp [addSyncMember, derivedMembersData, hl, h]
    · simp [addSyncMember, derivedMembersData, hl, h, teamMembersData, List.filter_append]

/-- One member insertion does not change other teams' member data. -/
theorem addSyncMember_data_ne (now tid tid2 : Nat) (st : DB × Nat) (mp : RemoteMember)
    (hne : tid2 ≠ tid) :
    teamMembersData (addSyncMember now tid st mp).1 tid2 = teamMembersData st.1 tid2 := by
  cases hl : mp.login with
  | none => simp [addSyncMember, hl]
  | some login =>
    by_cases h : login = ""
    · simp [addSyncMember, hl, h]
    · simp [addSyncMember, hl, h, teamMembersData, List.filter_append, Ne.symm hne]

/-- The member fold: frame on the teams table. -/
theorem foldl_addSyncMember_teams (now tid : Nat) :
    ∀ (ms : List RemoteMember) (st : DB × Nat),
      (ms.foldl (addSyncMember now tid) st).1.teams = st.1.teams ∧
      (ms.foldl (addSyncMember now tid) st).1.nextTeamId = st.1.nextTeamId := by
  intro ms
  induction ms with
  | nil => intro st; exact ⟨rfl, rfl⟩
  | cons mp rest ih =>
    intro st
    rw [List.foldl_cons]
    have h1 := ih (addSyncMember now tid st mp)
    have h2 := addSyncMember_teams now tid st mp
    exact ⟨h1.1.trans h2.1, h1.2.trans h2.2⟩

/-- The member fold appends exactly the derived member data to the
team's rows. -/
theorem foldl_addSyncMember_data (now tid : Nat) :
    ∀ (ms : List RemoteMember) (st : DB × Nat),
      teamMembersData (ms.foldl (addSyncMember now tid) st).1 tid =
        teamMembersData st.1 tid ++ derivedMembersData ms := by
  intro ms
  induction ms with
  | nil => intro st; simp [derivedMembersData]
  | cons mp rest ih =>
    intro st
    rw [List.foldl_cons, ih (addSyncMember now tid st mp), addSyncMember_data_eq]
    have : derivedMembersData (mp :: rest) =
        derivedMembersData [mp] ++ derivedMembersData rest := by
      cases hl : mp.login with
      | none => simp [derivedMembersData, hl]
      | some login => by_cases h : login = "" <;> simp [derivedMembersData, hl, h]
    rw [this, List.append_assoc]

/-- The member fold leaves other teams' member data alone. -/
theorem foldl_addSyncMember_data_ne (now tid tid2 : Nat) (hne : tid2 ≠ tid) :
    ∀ (ms : List RemoteMember) (st : DB × Nat),
      teamMembersData (ms.foldl (addSyncMember now tid) st).1 tid2 =
        teamMembersData st.1 tid2 := by
  intro ms
  induction ms with
  | nil => intro st; rfl
  | cons mp rest ih =>
    intro st
    rw [List.foldl_cons, ih (addSyncMember now tid st mp),
      addSyncMember_data_ne now tid tid2 st mp hne]

/-- What a successful iteration does to the database: well-formedness
is preserved; for a truthy-named team, its member fetch succeeded and
its member data becomes exactly the derived remote data (full replace);
every other name's member data is untouched. -/
theorem syncTeamStep_ok_props {remote : Remote} {org : String} {now : Nat}
    {st st' : LoopState} {tp : RemoteTeam}
    (hwf : dbWF st.db) (h : syncTeamStep remote org now st tp = .ok st') :
    dbWF st'.db ∧
    (∀ n, truthyName tp = some n →
      ∃ slug ms, tp.slug = some slug ∧ remote.membersResult slug = .ok ms ∧
        membersDataByName st'.db n = some (derivedMembersData ms)) ∧
    (∀ m, truthyName tp ≠ some m →
      membersDataByName st'.db m = membersDataByName st.db m) := by
  cases htp : tp.name with
  | none =>
    simp only [syncTeamStep, htp] at h
    cases h
    exact ⟨hwf, by simp [truthyName, htp], fun m _ => rfl⟩
  | some s =>
    by_cases hs : s = ""
    · subst hs
      simp only [syncTeamStep, htp, if_pos rfl] at h
      cases h
      exact ⟨hwf, by simp [truthyName, htp], fun m _ => rfl⟩
    · simp only [syncTeamStep, htp, if_neg hs] at h
      cases hslug : tp.slug with
      | none =>
        simp only [hslug] at h
        cases h
      | some slug =>
        simp only [hslug] at h
        cases hms : remote.membersResult slug with
        | error msg =>
          simp only [hms] at h
          cases h
        | ok ms =>
          simp only [hms] at h
          cases h
          have htr : truthyName tp = some s := by simp [truthyName, htp, hs]
          have hd := upsertTeam st.db s (pyOr tp.description "") now
          have hteamsEq :
              ((ms.foldl (addSyncMember now (upsertTeam st.db s (pyOr tp.description "") now).1.id)
                (clearTeamMembers (upsertTeam st.db s (pyOr tp.description "") now).2
                  (upsertTeam st.db s (pyOr tp.description "") now).1.id,
                 st.importedMembers)).1).teams
              = (upsertTeam st.db s (pyOr tp.description "") now).2.teams :=
            (foldl_addSyncMember_teams now _ ms _).1
          have hnextEq :
              ((ms.foldl (addSyncMember now (upsertTeam st.db s (pyOr tp.description "") now).1.id)
                (clearTeamMembers (upsertTeam st.db s (pyOr tp.description "") now).2
                  (upsertTeam st.db s (pyOr tp.description "") now).1.id,
                 st.importedMembers)).1).nextTeamId
              = (upsertTeam st.db s (pyOr tp.description "") now).2.nextTeamId :=
            (foldl_addSyncMember_teams now _ ms _).2
          refine ⟨?_, ?_, ?_⟩
          · exact dbWF_of_teams_eq hteamsEq hnextEq
              (upsertTeam_wf st.db s (pyOr tp.description "") now hwf)
          · intro n hn
            rw [htr] at hn
            injection hn with hn
            subst hn
            refine ⟨slug, ms, rfl, hms, ?_⟩
            unfold membersDataByName
            rw [teamByName_congr hteamsEq, upsertTeam_find_self]
            simp only [Option.map_some']
            rw [foldl_addSyncMember_data, clearTeamMembers_data_self]
            simp
          · intro m hm
            rw [htr] at hm
            have hnm : s ≠ m := fun hsm => hm (by rw [hsm])
            unfold membersDataByName
            rw [teamByName_congr hteamsEq, upsertTeam_find_other _ _ _ _ _ hwf hnm]
            cases hT : teamByName st.db m with
            | none => rfl
            | some T =>
              simp only [Option.map_some']
              have hidne : T.id ≠ (upsertTeam st.db s (pyOr tp.description "") now).1.id :=
                Ne.symm (upsertTeam_id_ne st.db s (pyOr tp.description "") now m T hwf hnm hT)
              rw [foldl_addSyncMember_data_ne now _ _ hidne,
                clearTeamMembers_data_ne _ _ _ hidne,
                teamMembersData_congr (upsertTeam_members st.db s (pyOr tp.description "") now)]

/-- The loop invariant: over a successful run of the reconciliation
loop against remote teams with pairwise distinct truthy names,
well-formedness is preserved, every truthy-named team ends with exactly
its derived remote member data, and the member data of names not in the
remote listing is untouched. -/
theorem syncLoop_members_replace (remote : Remote) (org : String) (now : Nat) :
    ∀ (ts : List RemoteTeam) (st st' : LoopState),
      dbWF st.db → (ts.filterMap truthyName).Nodup →
      syncLoop remote org now ts st = .ok st' →
      dbWF st'.db ∧
      (∀ tp ∈ ts, ∀ n, truthyName tp = some n →
        ∃ slug ms, tp.slug = some slug ∧ remote.membersResult slug = .ok ms ∧
          membersDataByName st'.db n = some (derivedMembersData ms)) ∧
      (∀ m, (∀ tp ∈ ts, truthyName tp ≠ some m) →
        membersDataByName st'.db m = membersDataByName st.db m) := by
  intro ts
  induction ts with
  | nil =>
    intro st st' hwf _ h
    cases h
    exact ⟨hwf, by simp, fun m _ => rfl⟩
  | cons tp rest ih =>
    intro st st' hwf hnodup h
    simp only [syncLoop] at h
    cases hstep : syncTeamStep remote org now st tp with
    | error e =>
      rw [hstep] at h
      cases h
    | ok st1 =>
      rw [hstep] at h
      obtain ⟨hwf1, hset, hpres⟩ := syncTeamStep_ok_props hwf hstep
      have hnodup' : (rest.filterMap truthyName).Nodup := by
        cases htn : truthyName tp with
        | none => simpa [List.filterMap_cons, htn] using hnodup
        | some nn =>
          have h2 : (nn :: rest.filterMap truthyName).Nodup := by
            simpa [List.filterMap_cons, htn] using hnodup
          exact (List.nodup_cons.mp h2).2
      obtain ⟨hwf', hset', hpres'⟩ := ih st1 st' hwf1 hnodup' h
      refine ⟨hwf', ?_, ?_⟩
      · intro tp2 htp2 n hn
        rcases List.mem_cons.mp htp2 with heq | hmem
        · subst heq
          obtain ⟨slug, ms, h1, h2, h3⟩ := hset n hn
          refine ⟨slug, ms, h1, h2, ?_⟩
          have hnotin : ∀ tp' ∈ rest, truthyName tp' ≠ some n := by
            intro tp' hmem' heq'
            have hcons : ((tp2 :: rest).filterMap truthyName)
                = n :: rest.filterMap truthyName := by
              simp [List.filterMap_cons, hn]
            rw [hcons] at hnodup
            exact (List.nodup_cons.mp hnodup).1
              (List.mem_filterMap.mpr ⟨tp', hmem', heq'⟩)
          rw [hpres' n hnotin]
          exact h3
        · exact hset' tp2 hmem n hn
      · intro m hm
        rw [hpres' m (fun tp' h' => hm tp' (List.mem_cons_of_mem tp h'))]
        exact hpres m (hm tp (List.mem_cons_self tp rest))

/-- C3: re-running sync against the same remote data is idempotent on
member lists.  After the first successful run each truthy-named remote
team holds exactly the member data derived from the remote listing
(the full replace deletes all prior local members first), and a second
successful run reproduces exactly the same member data — no duplicate
members are appended. -/
theorem sync_rerun_replaces_members (remote : Remote) (orgArg : Option String)
    (cfg : String) (now1 now2 : Nat) (db db1 db2 : DB) (ts : List RemoteTeam)
    (s1 s2 : Summary) (reqs1 reqs2 : List String)
    (hwf : dbWF db)
    (hts : remote.teamsResult = .ok ts)
    (hnodup : (ts.filterMap truthyName).Nodup)
    (hrun1 : syncGithub remote orgArg cfg now1 db = ⟨.ok s1, db1, reqs1⟩)
    (hrun2 : syncGithub remote orgArg cfg now2 db1 = ⟨.ok s2, db2, reqs2⟩) :
    ∀ tp ∈ ts, ∀ n, truthyName tp = some n →
      ∃ slug ms, tp.slug = some slug ∧ remote.membersResult slug = .ok ms ∧
        membersDataByName db1 n = some (derivedMembersData ms) ∧
        membersDataByName db2 n = membersDataByName db1 n := by
  have hinv1 := syncGithub_cases remote orgArg cfg now1 db
  rcases hinv1 with ⟨⟨e, he⟩, -⟩ | ⟨ts', st1, hts', hloop1, heq1⟩
  · rw [hrun1] at he
    cases he
  · rw [hts] at hts'
    injection hts' with hts''
    subst hts''
    rw [hrun1] at heq1
    have hdb1 : db1 = st1.db := congrArg SyncResult.db heq1
    obtain ⟨hwf1, hset1, -⟩ :=
      syncLoop_members_replace remote (pyStrip (pyOr orgArg cfg)) now1 ts _ st1 hwf hnodup hloop1
    have hinv2 := syncGithub_cases remote orgArg cfg now2 db1
    rcases hinv2 with ⟨⟨e, he⟩, -⟩ | ⟨ts2', st2, hts2', hloop2, heq2⟩
    · rw [hrun2] at he
      cases he
    · rw [hts] at hts2'
      injection hts2' with hts2''
      subst hts2''
      rw [hrun2] at heq2
      have hdb2 : db2 = st2.db := congrArg SyncResult.db heq2
      have hwfdb1 : dbWF db1 := by rw [hdb1]; exact hwf1
      obtain ⟨-, hset2, -⟩ :=
        syncLoop_members_replace remote (pyStrip (pyOr orgArg cfg)) now2 ts _ st2
          hwfdb1 hnodup hloop2
      intro tp htp n hn
      obtain ⟨slug, ms, h1, h2, h3⟩ := hset1 tp htp n hn
      obtain ⟨slug', ms', h1', h2', h3'⟩ := hset2 tp htp n hn
      rw [h1] at h1'
      injection h1' with hslugEq
      subst hslugEq
      rw [h2] at h2'
      injection h2' with hmsEq
      subst hmsEq
      refine ⟨slug, ms, h1, h2, ?_, ?_⟩
      · rw [hdb1]
        exact h3
      · rw [hdb1, hdb2, h3, h3']

/-- Witness for C3: syncing `caseRemoteOk` into `caseDb` twice (the
second run at a later timestamp) leaves team "Alpha" with exactly the
derived remote member data both times. -/
theorem sync_rerun_replaces_members_witness :
    dbWF caseDb ∧
    (caseRemoteOkTeams.filterMap truthyName).Nodup ∧
    (∃ slug ms,
      (⟨some "Alpha", some "alpha", some "remote desc"⟩ : RemoteTeam).slug = some slug ∧
      caseRemoteOk.membersResult slug = .ok ms ∧
      membersDataByName caseDbAfterOk "Alpha" = some (derivedMembersData ms) ∧
      membersDataByName caseDbAfterOk2 "Alpha" = membersDataByName caseDbAfterOk "Alpha") :=
  ⟨by decide, by decide,
   sync_rerun_replaces_members caseRemoteOk none "acme" 0 1 caseDb caseDbAfterOk
     caseDbAfterOk2 caseRemoteOkTeams ⟨"acme", 2, 2⟩ ⟨"acme", 2, 2⟩
     ["/orgs/acme/teams", "/orgs/acme/teams/alpha/members", "/orgs/acme/teams/beta/members"]
     ["/orgs/acme/teams", "/orgs/acme/teams/alpha/members", "/orgs/acme/teams/beta/members"]
     (by decide) (by decide) (by decide) (by decide) (by decide)
     ⟨some "Alpha", some "alpha", some "remote desc"⟩ (by decide) "Alpha" (by decide)⟩

end WebDemo
